import Mathlib

/-!
Verification of the E.V3 C++ microkernel (repository CompileCurious/E.V3)
against its natural-language specification.

The definitions below are a shallow embedding of the C++ sources under
`src/kernel_cpp/`.  Strings are modelled as `List Char`; machine integers
that never overflow in the modelled paths are `Nat`/`Int`; fallible
operations return `Option`/`Except` or a `Bool` success flag paired with
the updated state; the opaque llama.cpp runtime is modelled as an explicit
trace of step outcomes consumed by the generation loop.
-/

namespace EV3

/-- C++ `std::string` contents, modelled as a list of characters. -/
abbrev Str := List Char

/-! ## common.hpp: enums and string utilities -/

/-- `TaskStatus` from common.hpp. -/
inductive TaskStatus
  | Pending
  | Running
  | Completed
  | Cancelled
  | Failed
deriving DecidableEq, Repr

/-- `ModuleState` from common.hpp. -/
inductive ModuleState
  | Unloaded
  | Loaded
  | Enabled
  | Disabled
  | Error
deriving DecidableEq, Repr

/-- Permission bits from common.hpp (`enum class Permission : uint32_t`),
as the underlying `uint32_t` values. -/
def Permission.EventEmit : Nat := 4

/-- `Permission::EventSubscribe = 1 << 3`. -/
def Permission.EventSubscribe : Nat := 8

/-- `has_permission(set, check)` from common.hpp:
`(set & check) == check` on the underlying `uint32_t`. -/
def has_permission (set check : Nat) : Bool := (set &&& check) == check

/-- Whitespace set used by `trim` in common.hpp: `" \t\n\r\f\v"`. -/
def trimChars : Str := [' ', '\t', '\n', '\r', '\x0C', '\x0B']

/-- `trim` from common.hpp: drop leading and trailing characters from the
whitespace set (`find_first_not_of` / `find_last_not_of` / `substr`). -/
def trim (s : Str) : Str :=
  ((s.dropWhile (fun c => trimChars.contains c)).reverse.dropWhile
    (fun c => trimChars.contains c)).reverse

/-- `to_lower` from common.hpp: add 32 to characters in `'A'..'Z'`. -/
def to_lower (s : Str) : Str :=
  s.map (fun c => if 'A' ≤ c ∧ c ≤ 'Z' then Char.ofNat (c.toNat + 32) else c)

/-! ## task_queue.hpp: the priority queue backing `TaskQueue::queue_`

`TaskQueue` stores tasks in a `std::priority_queue<Task>` whose ordering is
`Task::operator<`, which compares **only** the priority field.  The heap
behaviour is modelled after the `push_heap` / `pop_heap` algorithm shared by
the MSVC and GNU C++ standard libraries (sift the popped hole down to a
leaf, then sift the displaced last element up). -/

/-- The fields of `Task` that the queue ordering can observe:
the monotonically assigned id and the priority (as the `int` cast of
`TaskPriority`: Low=0, Normal=1, High=2, Critical=3). -/
structure QTask where
  id : Nat
  priority : Nat
deriving DecidableEq, Repr

/-- `Task::operator<`: `static_cast<int>(priority) < static_cast<int>(other.priority)`. -/
def taskLt (a b : QTask) : Bool := a.priority < b.priority

/-- Read slot `i` of the heap's backing vector (all modelled accesses are
in bounds; the default is never reached on the executions we evaluate). -/
def hGet (v : List QTask) (i : Nat) : QTask := v.getD i ⟨0, 0⟩

/-- `__push_heap(first, holeIndex, topIndex, value)`: sift `value` up from
`holeIndex` while its parent compares less.  The fuel argument only bounds
the loop; `holeIndex` strictly decreases, so fuel `≥ holeIndex + 1` is
always sufficient. -/
def pushHeapHole : Nat → List QTask → Nat → Nat → QTask → List QTask
  | 0, v, holeIndex, _, value => v.set holeIndex value
  | fuel + 1, v, holeIndex, topIndex, value =>
    if holeIndex > topIndex ∧ taskLt (hGet v ((holeIndex - 1) / 2)) value then
      pushHeapHole fuel (v.set holeIndex (hGet v ((holeIndex - 1) / 2)))
        ((holeIndex - 1) / 2) topIndex value
    else v.set holeIndex value

/-- The sift-down loop of `__adjust_heap`: walk the hole down, always moving
the (weakly) larger child up, while a second child exists below `(len-1)/2`.
Returns the updated vector, hole index and `secondChild` cursor. -/
def adjustLoop : Nat → List QTask → Nat → Nat → Nat → List QTask × Nat × Nat
  | 0, v, holeIndex, secondChild, _ => (v, holeIndex, secondChild)
  | fuel + 1, v, holeIndex, secondChild, len =>
    if secondChild < (len - 1) / 2 then
      let sc0 := 2 * (secondChild + 1)
      let sc := if taskLt (hGet v sc0) (hGet v (sc0 - 1)) then sc0 - 1 else sc0
      adjustLoop fuel (v.set holeIndex (hGet v sc)) sc sc len
    else (v, holeIndex, secondChild)

/-- `__adjust_heap(first, holeIndex, len, value)`: sift the hole down to a
leaf (handling the final single-child level when `len` is even), then sift
`value` up from the hole towards the original `holeIndex`. -/
def adjustHeap (v : List QTask) (holeIndex len : Nat) (value : QTask) : List QTask :=
  let r := adjustLoop len v holeIndex holeIndex len
  let p :=
    if len % 2 == 0 ∧ r.2.2 == (len - 2) / 2 then
      ((r.1.set r.2.1 (hGet r.1 (2 * (r.2.2 + 1) - 1))), 2 * (r.2.2 + 1) - 1)
    else (r.1, r.2.1)
  pushHeapHole len p.1 p.2 holeIndex value

/-- `priority_queue::push`: append, then `push_heap` over the whole vector. -/
def pqPush (v : List QTask) (x : QTask) : List QTask :=
  let v1 := v ++ [x]
  pushHeapHole v1.length v1 (v1.length - 1) 0 x

/-- `priority_queue::pop`: `pop_heap` (move the front element to the back,
re-establish the heap on the prefix) then `pop_back`.  `pop_heap` is a
no-op for size `≤ 1`. -/
def pqPop (v : List QTask) : List QTask :=
  if v.length ≤ 1 then v.dropLast
  else
    let value := hGet v (v.length - 1)
    let v1 := v.set (v.length - 1) (hGet v 0)
    (adjustHeap v1 0 (v.length - 1) value).dropLast

/-- Repeatedly read `top()` and `pop()`, returning the ids in dequeue order
(this is the order in which `TaskQueue::worker_loop` hands tasks to a
single worker). -/
def popAllIds : Nat → List QTask → List Nat
  | 0, _ => []
  | fuel + 1, v =>
    match v with
    | [] => []
    | _ :: _ => (hGet v 0).id :: popAllIds fuel (pqPop v)

/-! ## task_queue.hpp: submit / stop and the per-task status cell -/

/-- The status/cancel cell pair allocated by `TaskQueue::submit` for each
task (`std::atomic<TaskStatus>` and `std::atomic<bool>`). -/
structure TaskCell where
  status : TaskStatus
  cancelled : Bool
deriving DecidableEq, Repr

/-- The queue state observable by `submit` / `stop`:
the `running_` flag, the id counter `next_id_`, the priority queue
`queue_`, and the status cells shared with the issued handles. -/
structure QueueState where
  running : Bool
  next_id : Nat
  heap : List QTask
  cells : List (Nat × TaskCell)
deriving DecidableEq, Repr

/-- `TaskQueue::submit` (task_queue.hpp lines 155-193): allocate a Pending
status cell and a cleared cancel flag, take an id from `next_id_`, push the
task onto `queue_`, and return the handle's id.  Note that `submit` never
consults `running_`. -/
def submit (s : QueueState) (priority : Nat) : QueueState × Nat :=
  let id := s.next_id
  ({ s with
      next_id := id + 1
      heap := pqPush s.heap ⟨id, priority⟩
      cells := s.cells ++ [(id, ⟨TaskStatus.Pending, false⟩)] }, id)

/-- `TaskQueue::stop` (task_queue.hpp lines 127-148): if not running, do
nothing; otherwise flip `running_` to false, join the workers, and drain
`queue_` without executing or touching the status cells of the dropped
tasks. -/
def stop (s : QueueState) : QueueState :=
  if s.running = false then s else { s with running := false, heap := [] }

/-- `TaskHandle::status()`: read the shared status cell; a null cell reads
`Failed` (the cell always exists for handles produced by `submit`). -/
def handleStatus (s : QueueState) (id : Nat) : TaskStatus :=
  match s.cells.lookup id with
  | some c => c.status
  | none => TaskStatus.Failed

/-- The worker-side wrapper that `TaskQueue::submit` builds around the
submitted work (task_queue.hpp lines 164-179): observable outcome of
running one task, as (whether the user work closure ran, the sequence of
status-cell stores it performed).  `cancelled` is the value of the shared
cancel flag when the wrapper starts; `workThrows` tells whether the user
work exits by exception. -/
def taskWorkWrapper (cancelled : Bool) (workThrows : Bool) : Bool × List TaskStatus :=
  if cancelled then (false, [TaskStatus.Cancelled])
  else if workThrows then (true, [TaskStatus.Running, TaskStatus.Failed])
  else (true, [TaskStatus.Running, TaskStatus.Completed])

/-! ## kernel.hpp: ModuleRegistry lifecycle operations -/

/-- The per-module data `ModuleRegistry` dispatches on: the current
lifecycle state, and the success of the module's virtual `disable()` /
`shutdown()` hooks (module behaviour is user code behind the abstract
`Module` base). -/
structure MockModule where
  state : ModuleState
  disableOk : Bool
  shutdownOk : Bool
deriving DecidableEq, Repr

/-- `ModuleRegistry::modules_`, keyed by module name. -/
abbrev Registry := List (String × MockModule)

/-- Update the entry (entries) stored under `name`. -/
def regUpdate (r : Registry) (name : String) (f : MockModule → MockModule) : Registry :=
  r.map (fun p => if p.1 == name then (p.1, f p.2) else p)

/-- `ModuleRegistry::disable_module` (kernel.hpp lines 123-136): unknown
name is a silent success; a module not in `Enabled` is a silent success;
otherwise run the module's `disable()` and set `Disabled` on success.
Returns (new registry, whether the `Result` was success). -/
def disable_module (r : Registry) (name : String) : Registry × Bool :=
  match r.lookup name with
  | none => (r, true)
  | some m =>
    if m.state ≠ ModuleState.Enabled then (r, true)
    else if m.disableOk then
      (regUpdate r name (fun m0 => { m0 with state := ModuleState.Disabled }), true)
    else (r, false)

/-- `ModuleRegistry::shutdown_module` (kernel.hpp lines 141-157): unknown
name is a silent success; disable first if currently `Enabled` (result
discarded); then run the module's `shutdown()` and, on success, set the
state to `Unloaded` — with **no** check of the prior state. -/
def shutdown_module (r : Registry) (name : String) : Registry × Bool :=
  match r.lookup name with
  | none => (r, true)
  | some m =>
    let r1 := if m.state = ModuleState.Enabled then (disable_module r name).1 else r
    match r1.lookup name with
    | none => (r1, true)
    | some m1 =>
      if m1.shutdownOk then
        (regUpdate r1 name (fun m0 => { m0 with state := ModuleState.Unloaded }), true)
      else (r1, false)

/-! ## event_bus.hpp / event_bus.cpp: EventBus -/

/-- `EventValue` from common.hpp (the `std::variant` of payload values). -/
inductive EventValue
  | null
  | boolean (b : Bool)
  | int64 (i : Int)
  | float64 (d : Float)
  | str (s : String)
  | strList (l : List String)
  | strMap (m : List (String × String))

/-- `EventData`: the payload map of an event. -/
abbrev EventData := List (String × EventValue)

/-- `Event` from event_bus.hpp.  The wall-clock timestamp taken by the
`Event` constructor is modelled as a tick supplied by the caller. -/
structure Event where
  type : String
  data : EventData
  source : String
  timestamp : Nat

/-- The state of an `EventBus`: the `running_` flag, the handler table
(name ↦ whether the registered `Module*` is non-null), the subscription
table (event type ↦ subscriber names), and the pending `event_queue_`. -/
structure BusState where
  running : Bool
  handlers : List (String × Bool)
  subscriptions : List (String × List String)
  event_queue : List Event

/-- `EventBus::emit` (event_bus.hpp lines 129-139): construct the event,
push it onto `event_queue_`, notify, return `true`.  No flag is consulted
and no failure path exists. -/
def emit (s : BusState) (event_type : String) (data : EventData) (source : String)
    (tick : Nat) : Bool × BusState :=
  (true, { s with event_queue := s.event_queue ++ [⟨event_type, data, source, tick⟩] })

/-- `EventBus::stop` (event_bus.hpp lines 65-73): clear `running_` and join
the worker; the queue and tables are untouched. -/
def busStop (s : BusState) : BusState := { s with running := false }

/-- `EventBus::start`: set `running_` and spawn the worker. -/
def busStart (s : BusState) : BusState := { s with running := true }

/-- `std::unordered_set<std::string>::insert` on the model's subscriber
list: no duplicates. -/
def setInsert (l : List String) (x : String) : List String :=
  if x ∈ l then l else l ++ [x]

/-- `subscriptions_[event_type].insert(module_name)`. -/
def subsAdd (subs : List (String × List String)) (etype name : String) :
    List (String × List String) :=
  match subs.lookup etype with
  | some _ => subs.map (fun p => if p.1 = etype then (p.1, setInsert p.2 name) else p)
  | none => subs ++ [(etype, [name])]

/-- `EventBus::subscribe` (event_bus.hpp lines 101-112): fail if the name
has no handler table entry, otherwise record the subscription. -/
def subscribe (s : BusState) (event_type module_name : String) : Bool × BusState :=
  match s.handlers.lookup module_name with
  | none => (false, s)
  | some _ =>
    (true, { s with subscriptions := subsAdd s.subscriptions event_type module_name })

/-- `EventBus::deliver_event` (event_bus.cpp lines 39-69), as the list of
module names whose `handle_event` is invoked, in subscriber iteration
order: the subscribers of the event's type, minus the event's source, minus
names with no (or a null) handler entry. -/
def deliver_event (s : BusState) (e : Event) : List String :=
  match s.subscriptions.lookup e.type with
  | none => []
  | some subscribers =>
    subscribers.filter (fun n => n ≠ e.source ∧ s.handlers.lookup n = some true)

/-- `EventBus::emit_sync` (event_bus.cpp lines 71-74): build the event and
call `deliver_event` directly on the caller's thread. -/
def emit_sync (s : BusState) (event_type : String) (data : EventData) (source : String)
    (tick : Nat) : List String :=
  deliver_event s ⟨event_type, data, source, tick⟩

/-! ## module.hpp: KernelAPI permission gate -/

/-- `KernelAPI::permissions_`: module name ↦ granted permission bitset. -/
structure ApiState where
  permissions : List (String × Nat)

/-- `KernelAPI::check_permission`: absent modules have no permissions. -/
def check_permission (api : ApiState) (module_name : String) (perm : Nat) : Bool :=
  match api.permissions.lookup module_name with
  | none => false
  | some p => has_permission p perm

/-- The permission set granted to a module (empty bitset when the module
has no registry entry). -/
def grantedPerms (api : ApiState) (module_name : String) : Nat :=
  (api.permissions.lookup module_name).getD 0

/-- `KernelAPI::emit_event` (module.hpp lines 142-148): denied without the
`EventEmit` bit (returns false, bus untouched); otherwise forwards to
`EventBus::emit` with the module name as source. -/
def emit_event (api : ApiState) (bus : BusState) (module_name event_type : String)
    (data : EventData) (tick : Nat) : Bool × BusState :=
  if check_permission api module_name Permission.EventEmit then
    emit bus event_type data module_name tick
  else (false, bus)

/-- `KernelAPI::subscribe_event` (module.hpp lines 153-159): denied without
the `EventSubscribe` bit; otherwise forwards to `EventBus::subscribe`. -/
def subscribe_event (api : ApiState) (bus : BusState) (module_name event_type : String) :
    Bool × BusState :=
  if check_permission api module_name Permission.EventSubscribe then
    subscribe bus event_type module_name
  else (false, bus)

/-! ## kernel.hpp: `process_user_message` (boundary adapter user_message path) -/

/-- The canned greetings map in `Kernel::process_user_message`
(kernel.hpp lines 476-487). -/
def greetings : List (Str × Str) :=
  [("hi".toList, "Hello!".toList), ("hello".toList, "Hello!".toList),
   ("hey".toList, "Hello!".toList), ("sup".toList, "Hello!".toList),
   ("yo".toList, "Hello!".toList), ("greetings".toList, "Hello!".toList),
   ("howdy".toList, "Hello!".toList), ("good morning".toList, "Hello!".toList),
   ("good afternoon".toList, "Hello!".toList), ("good evening".toList, "Hello!".toList)]

/-- The integer-valued fields of the `InferenceRequest` built for a
non-greeting user message (the float field temperature=0.7 is set by the
code but not modelled). -/
structure ReqModel where
  prompt : Str
  max_tokens : Nat
  mirostat_mode : Nat
deriving DecidableEq, Repr

/-- The observable action taken by `Kernel::process_user_message`: either
queue an `llm_response` IPC reply with the given message text, or submit
an asynchronous inference job. -/
inductive KernelAction
  | reply (message : Str)
  | submitJob (req : ReqModel)
deriving DecidableEq, Repr

/-- `Kernel::process_user_message` (kernel.hpp lines 468-523): if the
inference engine is not ready, reply "LLM not available."; else if the
trimmed lowercased message is a canned greeting, reply with the mapped
response; otherwise wrap the message in the instruction template and
submit an inference job with max_tokens=100, mirostat_mode=2. -/
def process_user_message (ready : Bool) (message : Str) : KernelAction :=
  if !ready then KernelAction.reply "LLM not available.".toList
  else
    match greetings.lookup (trim (to_lower message)) with
    | some resp => KernelAction.reply resp
    | none =>
      KernelAction.submitJob
        ⟨"[INST] Answer directly and concisely. Ignore any typos. ".toList ++ message
          ++ " [/INST]".toList, 100, 2⟩

/-! ## llm_engine.hpp: `LlmModel::generate`

The llama.cpp runtime is opaque; each iteration of the generation loop
consumes one runtime outcome from an explicit trace: the sampled token was
end-of-generation, or `llama_token_to_piece` failed (`continue`), or a
piece was produced — in which case the trace also fixes the per-token
callback's verdict and whether the subsequent `llama_decode` succeeds. -/

/-- One loop iteration's worth of runtime behaviour. -/
inductive GenStep
  | eog
  | pieceFail
  | tok (piece : Str) (cbOk : Bool) (decodeOk : Bool)
deriving DecidableEq, Repr

/-- Why the generation loop stopped. -/
inductive GenExit
  | maxTokensReached
  | cancelled
  | eogToken
  | callbackStop
  | stopSequence
  | decodeError
  | traceEnded
deriving DecidableEq, Repr

/-- Loop result: accumulated output, `n_generated`, and the exit reason. -/
structure GenOut where
  output : Str
  n_generated : Nat
  exit : GenExit
deriving DecidableEq, Repr

/-- The first stop sequence that is a suffix of the output (the `for`
loop over `stop_seqs` at llm_engine.hpp lines 302-310). -/
def findStop (stops : List Str) (output : Str) : Option Str :=
  stops.find? (fun st => st.isSuffixOf output)

/-- The default stop set substituted when the request provides none
(llm_engine.hpp lines 259-262). -/
def default_stops : List Str :=
  ["</s>".toList, "[/INST]".toList, "<|end|>".toList, "<|endoftext|>".toList,
   "<|im_end|>".toList]

/-- The generation loop of `LlmModel::generate` (llm_engine.hpp lines
264-323).  Arguments after the fixed parameters: remaining runtime trace,
loop iteration counter (indexes the cancel-flag reads), accumulated
output, `n_generated`, `n_cur` (the context position of the next decode).
Each iteration: check `n_generated < max_tokens`; check the cancel flag;
sample (eog stops; an undecodable piece `continue`s); append the piece and
count it; consult the callback; check stop-sequence suffixes (truncating
the match); decode the one-token batch at `n_cur` (failure is the
`Inference`-error return). -/
def genLoop (cancel : Nat → Bool) (stops : List Str) (hasCb : Bool) (max_tokens : Nat) :
    List GenStep → Nat → Str → Nat → Nat → GenOut
  | steps, iter, output, n_generated, n_cur =>
    if n_generated < max_tokens then
      if cancel iter then ⟨output, n_generated, GenExit.cancelled⟩
      else
        match steps with
        | [] => ⟨output, n_generated, GenExit.traceEnded⟩
        | GenStep.eog :: _ => ⟨output, n_generated, GenExit.eogToken⟩
        | GenStep.pieceFail :: rest =>
          genLoop cancel stops hasCb max_tokens rest (iter + 1) output n_generated n_cur
        | GenStep.tok piece cbOk decodeOk :: rest =>
          if hasCb ∧ cbOk = false then
            ⟨output ++ piece, n_generated + 1, GenExit.callbackStop⟩
          else
            match findStop stops (output ++ piece) with
            | some st =>
              ⟨(output ++ piece).take ((output ++ piece).length - st.length),
                n_generated + 1, GenExit.stopSequence⟩
            | none =>
              if decodeOk then
                genLoop cancel stops hasCb max_tokens rest (iter + 1) (output ++ piece)
                  (n_generated + 1) (n_cur + 1)
              else ⟨output ++ piece, n_generated + 1, GenExit.decodeError⟩
    else ⟨output, n_generated, GenExit.maxTokensReached⟩

/-- Pre-loop failures of `generate` (the in-loop decode failure is
`GenExit.decodeError`). -/
inductive GenError
  | promptTooLong
  | decodeFail
deriving DecidableEq, Repr

/-- A runtime trace is context-faithful for context length `C` when, at
the running context position, every decode reported successful happened at
a position `< C` (llama.cpp rejects a decode once the KV cache holds `C`
positions).  `pos` advances only on successful decodes, mirroring
`n_cur`. -/
def ctxFaithful (C : Nat) : Nat → List GenStep → Bool
  | _, [] => true
  | pos, GenStep.tok _ _ decodeOk :: rest =>
    (!decodeOk || decide (pos < C)) && ctxFaithful C (if decodeOk then pos + 1 else pos) rest
  | pos, _ :: rest => ctxFaithful C pos rest

/-- `LlmModel::generate` (llm_engine.hpp lines 194-331), from the point
where tokenization produced `P` prompt tokens: reject when
`P > context_length - 4` (signed comparison), substitute the default stop
set when the request has none, run the loop from position `P`, convert an
in-loop decode failure to an error (discarding the partial output), and
otherwise return the trimmed output.  The loop result is returned
alongside as the observable instrumentation.  (The model-not-loaded and
tokenizer-failure early errors, and the prompt batch evaluation, occur
before any token is generated and are not modelled.) -/
def generate (C P max_tokens : Nat) (request_stops : List Str) (hasCb : Bool)
    (cancel : Nat → Bool) (steps : List GenStep) : Except GenError Str × Option GenOut :=
  if (P : Int) > (C : Int) - 4 then (Except.error GenError.promptTooLong, none)
  else
    let stops := if request_stops.isEmpty then default_stops else request_stops
    let r := genLoop cancel stops hasCb max_tokens steps 0 [] 0 P
    if r.exit = GenExit.decodeError then (Except.error GenError.decodeFail, some r)
    else (Except.ok (trim r.output), some r)

/-- Concrete five-token runtime trace used to refute the claimed
`min(max_tokens, context_length - prompt_tokens)` bound: four ordinary
tokens whose decodes succeed (context positions 4,5,6,7 with C=8), then a
fifth token on which the callback requests a stop (its decode never
runs). -/
def cexSteps : List GenStep :=
  [GenStep.tok ['a'] true true, GenStep.tok ['b'] true true, GenStep.tok ['c'] true true,
   GenStep.tok ['d'] true true, GenStep.tok ['e'] false false]

/-! ## ipc_server.hpp: `IpcMessage` JSON serialization -/

/-- The escape table of `IpcMessage::escape_json` (ipc_server.hpp lines
100-114), per character. -/
def escape_char (c : Char) : Str :=
  if c = '"' then ['\\', '"']
  else if c = '\\' then ['\\', '\\']
  else if c = '\n' then ['\\', 'n']
  else if c = '\r' then ['\\', 'r']
  else if c = '\t' then ['\\', 't']
  else [c]

/-- `IpcMessage::escape_json`. -/
def escape_json : Str → Str
  | [] => []
  | c :: cs => escape_char c ++ escape_json cs

/-- `IpcMessage::unescape_json` (ipc_server.hpp lines 116-134): a
backslash followed by one of `"` `\` `n` `r` `t` decodes; a backslash
followed by anything else is kept literally and the next character is
processed afresh; a trailing backslash is kept. -/
def unescape_json : Str → Str
  | [] => []
  | c :: rest =>
    if c = '\\' then
      match rest with
      | [] => ['\\']
      | d :: rest2 =>
        if d = '"' then '"' :: unescape_json rest2
        else if d = '\\' then '\\' :: unescape_json rest2
        else if d = 'n' then '\n' :: unescape_json rest2
        else if d = 'r' then '\r' :: unescape_json rest2
        else if d = 't' then '\t' :: unescape_json rest2
        else '\\' :: unescape_json (d :: rest2)
    else c :: unescape_json rest

/-- The key/value serialization loop of `IpcMessage::to_json` (the `for`
over `data` with a `first` flag separating pairs by commas). -/
def data_json : List (Str × Str) → Bool → Str
  | [], _ => []
  | (k, v) :: rest, first =>
    (if first then [] else [',']) ++
      ('"' :: escape_json k ++ '"' :: ':' :: '"' :: escape_json v ++ ['"']) ++
      data_json rest false

/-- `IpcMessage` (ipc_server.hpp lines 26-28): a type tag and a flat
string-to-string map, modelled as an association list in the map's
iteration order (keys are distinct in a `std::unordered_map`). -/
structure IpcMessage where
  type : Str
  data : List (Str × Str)
deriving DecidableEq, Repr

/-- `IpcMessage::to_json` (ipc_server.hpp lines 33-43). -/
def to_json (m : IpcMessage) : Str :=
  "\x7b\"type\":\"".toList ++ escape_json m.type ++ "\",\"data\":\x7b".toList
    ++ data_json m.data true ++ "\x7d\x7d".toList

/-- `std::string_view::find(char, pos)` — scan with a running index. -/
def findCharAux : Str → Char → Nat → Option Nat
  | [], _, _ => none
  | c :: cs, target, i => if c = target then some i else findCharAux cs target (i + 1)

/-- `json.find(c, pos)`: first index `≥ pos` holding `c` (`none` = `npos`). -/
def findChar (s : Str) (target : Char) (pos : Nat) : Option Nat :=
  (findCharAux (s.drop pos) target 0).map (fun i => pos + i)

/-- `std::string_view::find(pattern, pos)` — scan for a substring. -/
def findSubAux : Str → Str → Nat → Option Nat
  | [], pat, i => if pat.isEmpty then some i else none
  | c :: cs, pat, i =>
    if pat.isPrefixOf (c :: cs) then some i else findSubAux cs pat (i + 1)

/-- `json.find(pattern, pos)`: first index `≥ pos` where `pattern` starts. -/
def findSub (s pat : Str) (pos : Nat) : Option Nat :=
  (findSubAux (s.drop pos) pat 0).map (fun i => pos + i)

/-- `std::string_view::substr(pos, len)`. -/
def substr (s : Str) (pos len : Nat) : Str := (s.drop pos).take len

/-- `msg.data[key] = value` on the `std::unordered_map`: overwrite an
existing key, otherwise insert. -/
def mapAssign (m : List (Str × Str)) (k v : Str) : List (Str × Str) :=
  if m.any (fun p => p.1 == k) then m.map (fun p => if p.1 == k then (p.1, v) else p)
  else m ++ [(k, v)]

/-- The key/value scanning loop of `IpcMessage::from_json` (ipc_server.hpp
lines 74-94): while `pos < size`, find a quoted key, skip `":` after its
closing quote, find a quoted value, store
`data[unescape_json key] = unescape_json value`, continue after the
value's closing quote.  Any failed find ends the loop.  `pos` advances by
at least 5 per iteration, so fuel `content.length + 1` never runs out. -/
def parse_pairs : Nat → Str → Nat → List (Str × Str) → List (Str × Str)
  | 0, _, _, acc => acc
  | fuel + 1, content, pos, acc =>
    if pos < content.length then
      match findChar content '"' pos with
      | none => acc
      | some key_start =>
        match findChar content '"' (key_start + 1) with
        | none => acc
        | some key_end =>
          match findChar content '"' (key_end + 2) with
          | none => acc
          | some val_start =>
            match findChar content '"' (val_start + 1) with
            | none => acc
            | some val_end =>
              parse_pairs fuel content (val_end + 1)
                (mapAssign acc
                  (unescape_json (substr content (key_start + 1) (key_end - key_start - 1)))
                  (unescape_json (substr content (val_start + 1) (val_end - val_start - 1))))
    else acc

/-- `IpcMessage::from_json` (ipc_server.hpp lines 48-97): locate
`"type":` and take the text between the next two quotes as the type
(without unescaping); locate `"data":{` and scan key/value pairs between
the following `{` and the first `}` after it.  A `find` returning `npos`
before the type is parsed yields `nullopt`; afterwards it yields the
message parsed so far. -/
def from_json (json : Str) : Option IpcMessage :=
  match findSub json "\"type\":".toList 0 with
  | none => none
  | some type_start =>
    match findChar json '"' (type_start + 7) with
    | none => none
    | some type_val_start =>
      match findChar json '"' (type_val_start + 1) with
      | none => none
      | some type_val_end =>
        let t := substr json (type_val_start + 1) (type_val_end - type_val_start - 1)
        match findSub json "\"data\":\x7b".toList 0 with
        | none => some ⟨t, []⟩
        | some data_start =>
          match findChar json '{' data_start with
          | none => some ⟨t, []⟩
          | some data_obj_start =>
            match findChar json '}' data_obj_start with
            | none => some ⟨t, []⟩
            | some data_obj_end =>
              let content := substr json (data_obj_start + 1)
                (data_obj_end - data_obj_start - 1)
              some ⟨t, parse_pairs (content.length + 1) content 0 []⟩

/-- Printable ASCII (0x20–0x7E). -/
abbrev printableAscii (c : Char) : Prop := 32 ≤ c.toNat ∧ c.toNat ≤ 126

/-- Characters for which the round trip preserves the `type` field:
printable ASCII except `"` and `\`. -/
abbrev goodTypeChar (c : Char) : Prop := printableAscii c ∧ c ≠ '"' ∧ c ≠ '\\'

/-- Characters for which the round trip preserves data keys and values:
additionally excluding `}` (which terminates the parser's data scan). -/
abbrev goodKVChar (c : Char) : Prop := goodTypeChar c ∧ c ≠ '}'

/-- The message refuting the unrestricted round-trip claim: a printable
ASCII value consisting of the single character `}`. -/
def cexIpcMsg : IpcMessage := ⟨"t".toList, [("k".toList, "\x7d".toList)]⟩

/-! ## Helper lemmas -/

theorem lookup_append_fresh {α β : Type} [BEq α] [LawfulBEq α]
    (l : List (α × β)) (k : α) (v : β) (h : ∀ p ∈ l, p.1 ≠ k) :
    (l ++ [(k, v)]).lookup k = some v := by
  induction l with
  | nil => simp [List.lookup]
  | cons p ps ih =>
    have hp : p.1 ≠ k := h p (List.mem_cons_self p ps)
    have hk : (k == p.1) = false := by
      simp only [beq_eq_false_iff_ne]
      exact fun hkp => hp hkp.symm
    simp only [List.cons_append, List.lookup, hk]
    exact ih (fun q hq => h q (List.mem_cons_of_mem p hq))

theorem lookup_regUpdate (r : Registry) (name : String) (m : MockModule)
    (f : MockModule → MockModule) (h : r.lookup name = some m) :
    (regUpdate r name f).lookup name = some (f m) := by
  induction r with
  | nil => simp [List.lookup] at h
  | cons p ps ih =>
    simp only [regUpdate, List.map_cons]
    by_cases hpn : p.1 = name
    · rw [if_pos (beq_iff_eq.mpr hpn)]
      have hb2 : (name == p.1) = true := beq_iff_eq.mpr hpn.symm
      simp only [List.lookup, hb2] at h ⊢
      simp only [Option.some.injEq] at h
      rw [h]
    · rw [if_neg (by simp [hpn])]
      have hb2 : (name == p.1) = false := by
        simp only [beq_eq_false_iff_ne]
        exact fun e => hpn e.symm
      simp only [List.lookup, hb2] at h ⊢
      exact ih h

theorem check_permission_eq_granted (api : ApiState) (m : String) (p : Nat)
    (hp : (0 == p) = false) :
    check_permission api m p = has_permission (grantedPerms api m) p := by
  unfold check_permission grantedPerms
  cases h : api.permissions.lookup m with
  | none =>
    simp only [Option.getD_none, has_permission]
    rw [Nat.zero_and]
    exact hp.symm
  | some q => rfl

theorem genLoop_le_max (cancel : Nat → Bool) (stops : List Str) (hasCb : Bool) (maxT : Nat)
    (steps : List GenStep) :
    ∀ (iter : Nat) (output : Str) (n n_cur : Nat), n ≤ maxT →
      (genLoop cancel stops hasCb maxT steps iter output n n_cur).n_generated ≤ maxT := by
  induction steps with
  | nil =>
    intro iter output n n_cur hn
    simp only [genLoop]
    split
    · split
      · exact hn
      · exact hn
    · exact hn
  | cons st rest ih =>
    intro iter output n n_cur hn
    cases st with
    | eog =>
      simp only [genLoop]
      split
      · split
        · exact hn
        · exact hn
      · exact hn
    | pieceFail =>
      simp only [genLoop]
      split
      · split
        · exact hn
        · exact ih _ _ _ _ hn
      · exact hn
    | tok piece cbOk decodeOk =>
      simp only [genLoop]
      split
      · rename_i h1
        split
        · exact hn
        · split
          · exact h1
          · split
            · exact h1
            · split
              · exact ih _ _ _ _ h1
              · exact h1
      · exact hn

theorem genLoop_ctx_bound (cancel : Nat → Bool) (stops : List Str) (hasCb : Bool)
    (maxT C : Nat) (steps : List GenStep) :
    ∀ (iter : Nat) (output : Str) (n n_cur : Nat), ctxFaithful C n_cur steps = true →
      (genLoop cancel stops hasCb maxT steps iter output n n_cur).n_generated
        ≤ n + (C - n_cur) + 1 := by
  induction steps with
  | nil =>
    intro iter output n n_cur hf
    simp only [genLoop]
    split
    · split
      · dsimp only; omega
      · dsimp only; omega
    · dsimp only; omega
  | cons st rest ih =>
    intro iter output n n_cur hf
    cases st with
    | eog =>
      simp only [genLoop]
      split
      · split
        · dsimp only; omega
        · dsimp only; omega
      · dsimp only; omega
    | pieceFail =>
      simp only [ctxFaithful] at hf
      simp only [genLoop]
      split
      · split
        · dsimp only; omega
        · exact ih _ _ _ _ hf
      · dsimp only; omega
    | tok piece cbOk decodeOk =>
      simp only [ctxFaithful, Bool.and_eq_true] at hf
      simp only [genLoop]
      split
      · split
        · dsimp only; omega
        · split
          · dsimp only; omega
          · split
            · dsimp only; omega
            · split
              · rename_i hdec
                rw [hdec] at hf
                simp only [Bool.not_true, Bool.false_or, if_pos rfl] at hf
                have hlt : n_cur < C := of_decide_eq_true hf.1
                have hrec := ih (iter + 1) (output ++ piece) (n + 1) (n_cur + 1) hf.2
                omega
              · dsimp only; omega
      · dsimp only; omega

theorem genLoop_cancel_bound (cancel : Nat → Bool) (stops : List Str) (hasCb : Bool)
    (maxT j : Nat) (hj : ∀ i, j ≤ i → cancel i = true) (steps : List GenStep) :
    ∀ (iter : Nat) (output : Str) (n n_cur : Nat),
      (genLoop cancel stops hasCb maxT steps iter output n n_cur).n_generated
        ≤ n + (j - iter) := by
  induction steps with
  | nil =>
    intro iter output n n_cur
    simp only [genLoop]
    split
    · split
      · dsimp only; omega
      · dsimp only; omega
    · dsimp only; omega
  | cons st rest ih =>
    intro iter output n n_cur
    cases st with
    | eog =>
      simp only [genLoop]
      split
      · split
        · dsimp only; omega
        · dsimp only; omega
      · dsimp only; omega
    | pieceFail =>
      simp only [genLoop]
      split
      · split
        · dsimp only; omega
        · rename_i hcan
          have hlt : iter < j := by
            by_contra hcon
            exact hcan (hj iter (Nat.le_of_not_lt hcon))
          have hrec := ih (iter + 1) output n n_cur
          omega
      · dsimp only; omega
    | tok piece cbOk decodeOk =>
      simp only [genLoop]
      split
      · split
        · dsimp only; omega
        · rename_i hcan
          have hlt : iter < j := by
            by_contra hcon
            exact hcan (hj iter (Nat.le_of_not_lt hcon))
          split
          · dsimp only; omega
          · split
            · dsimp only; omega
            · split
              · have hrec := ih (iter + 1) (output ++ piece) (n + 1) (n_cur + 1)
                omega
              · dsimp only; omega
      · dsimp only; omega

/-! ## Helper lemmas -/

theorem escape_char_id (c : Char) (h : goodTypeChar c) : escape_char c = [c] := by
  obtain ⟨⟨h32, _⟩, hq, hb⟩ := h
  have hn : c ≠ '\n' := by intro e; subst e; exact absurd h32 (by decide)
  have hr : c ≠ '\r' := by intro e; subst e; exact absurd h32 (by decide)
  have ht : c ≠ '\t' := by intro e; subst e; exact absurd h32 (by decide)
  simp [escape_char, hq, hb, hn, hr, ht]

theorem escape_json_id (s : Str) (h : ∀ c ∈ s, goodTypeChar c) : escape_json s = s := by
  induction s with
  | nil => rfl
  | cons c cs ih =>
    rw [escape_json, escape_char_id c (h c (List.mem_cons_self c cs))]
    rw [ih (fun d hd => h d (List.mem_cons_of_mem c hd))]
    rfl

theorem unescape_json_id (s : Str) (h : '\\' ∉ s) : unescape_json s = s := by
  induction s with
  | nil => rfl
  | cons c cs ih =>
    have hc : c ≠ '\\' := fun e => h (e ▸ List.mem_cons_self c cs)
    rw [unescape_json.eq_def]
    dsimp only
    rw [if_neg hc, ih (fun hm => h (List.mem_cons_of_mem c hm))]

theorem findCharAux_append_first (a : Str) (c : Char) (b : Str) (hc : c ∉ a) :
    ∀ i, findCharAux (a ++ c :: b) c i = some (i + a.length) := by
  induction a with
  | nil => intro i; simp [findCharAux]
  | cons x xs ih =>
    intro i
    have hx : x ≠ c := fun e => hc (e ▸ List.mem_cons_self x xs)
    rw [List.cons_append, findCharAux, if_neg hx,
      ih (fun hm => hc (List.mem_cons_of_mem x hm)) (i + 1)]
    simp [List.length_cons]
    omega

theorem findChar_split (a : Str) (c : Char) (b : Str) (hc : c ∉ a) :
    findChar (a ++ c :: b) c 0 = some a.length := by
  rw [findChar, List.drop_zero, findCharAux_append_first a c b hc 0]
  simp

theorem drop_append_add {α : Type} (a b : List α) (k : Nat) :
    (a ++ b).drop (a.length + k) = b.drop k := by
  induction a with
  | nil => simp
  | cons x xs ih =>
    have : (x :: xs).length + k = (xs.length + k) + 1 := by simp; omega
    rw [this, List.cons_append, List.drop_succ_cons, ih]

theorem findChar_append_zero (a b : Str) (c : Char) :
    findChar (a ++ b) c a.length = (findChar b c 0).map (fun i => a.length + i) := by
  rw [findChar, findChar]
  rw [show a.length = a.length + 0 from rfl, drop_append_add a b 0, List.drop_zero]
  cases findCharAux b c 0 with
  | none => rfl
  | some i => simp

theorem findChar_cons_self (c : Char) (b : Str) : findChar (c :: b) c 0 = some 0 := by
  simp [findChar, findCharAux]

theorem findSubAux_of_min (pat : Str) (hne : pat ≠ []) :
    ∀ (p : Nat) (s : Str) (i : Nat), pat.isPrefixOf (s.drop p) = true →
      (∀ q, q < p → pat.isPrefixOf (s.drop q) = false) →
      findSubAux s pat i = some (i + p) := by
  intro p
  induction p with
  | zero =>
    intro s i hocc _
    cases s with
    | nil =>
      rw [List.drop_nil] at hocc
      cases pat with
      | nil => exact absurd rfl hne
      | cons c cs => simp [List.isPrefixOf] at hocc
    | cons c cs =>
      rw [List.drop_zero] at hocc
      rw [findSubAux, if_pos hocc]
      simp
  | succ p ih =>
    intro s i hocc hmin
    cases s with
    | nil =>
      rw [List.drop_nil] at hocc
      cases pat with
      | nil => exact absurd rfl hne
      | cons c cs => simp [List.isPrefixOf] at hocc
    | cons c cs =>
      have h0 : pat.isPrefixOf ((c :: cs).drop 0) = false := hmin 0 (Nat.succ_pos p)
      rw [List.drop_zero] at h0
      rw [findSubAux, if_neg (by rw [h0]; exact Bool.false_ne_true)]
      have hr := ih cs (i + 1) (by simpa using hocc)
        (fun q hq => by simpa using hmin (q + 1) (Nat.succ_lt_succ hq))
      rw [hr]
      simp
      omega

theorem findSub_eq (s pat : Str) (p : Nat) (hne : pat ≠ [])
    (hocc : pat.isPrefixOf (s.drop p) = true)
    (hmin : ∀ q, q < p → pat.isPrefixOf (s.drop q) = false) :
    findSub s pat 0 = some p := by
  rw [findSub, List.drop_zero, findSubAux_of_min pat hne p s 0 hocc hmin]
  simp

theorem substr_append {a : Str} (b : Str) (n : Nat) : substr (a ++ b) a.length n = b.take n := by
  rw [substr, show a.length = a.length + 0 from rfl, drop_append_add a b 0, List.drop_zero]

theorem take_append_len {α : Type} (a b : List α) : (a ++ b).take a.length = a := by
  induction a with
  | nil => simp
  | cons x xs ih => simp [List.take_succ_cons, ih]

theorem mapAssign_fresh (m : List (Str × Str)) (k v : Str)
    (h : ∀ p ∈ m, p.1 ≠ k) : mapAssign m k v = m ++ [(k, v)] := by
  rw [mapAssign, if_neg]
  intro hany
  obtain ⟨p, hp, hpk⟩ := List.any_eq_true.mp hany
  exact h p hp (by simpa using hpk)

theorem not_prefix_head_ne {a b : Char} (l1 l2 : Str) (h : a ≠ b) :
    ¬ (a :: l1 <+: b :: l2) := by
  intro hp
  exact h (List.cons_prefix_cons.mp hp).1

theorem drop_lt_exists_cons (l : Str) (j : Nat) (h : j < l.length) :
    ∃ x xs, l.drop j = x :: xs ∧ x ∈ l := by
  induction l generalizing j with
  | nil => simp at h
  | cons c cs ih =>
    cases j with
    | zero => exact ⟨c, cs, rfl, List.mem_cons_self c cs⟩
    | succ j =>
      obtain ⟨x, xs, hd, hm⟩ := ih j (by simpa using h)
      exact ⟨x, xs, by simpa using hd, List.mem_cons_of_mem c hm⟩

theorem data_pat_not_prefix (T rest : Str) (hT : '"' ∉ T) :
    ¬ ((['d', 'a', 't', 'a', '"', ':', '{'] : Str) <+: T ++ ('"' :: ',' :: rest)) := by
  rcases T with _ | ⟨a1, T1⟩
  · exact not_prefix_head_ne _ _ (by decide)
  · intro hp
    rw [List.cons_append] at hp
    obtain ⟨e1, hp⟩ := List.cons_prefix_cons.mp hp
    rcases T1 with _ | ⟨a2, T2⟩
    · exact absurd (List.cons_prefix_cons.mp hp).1 (by decide)
    · rw [List.cons_append] at hp
      obtain ⟨e2, hp⟩ := List.cons_prefix_cons.mp hp
      rcases T2 with _ | ⟨a3, T3⟩
      · exact absurd (List.cons_prefix_cons.mp hp).1 (by decide)
      · rw [List.cons_append] at hp
        obtain ⟨e3, hp⟩ := List.cons_prefix_cons.mp hp
        rcases T3 with _ | ⟨a4, T4⟩
        · exact absurd (List.cons_prefix_cons.mp hp).1 (by decide)
        · rw [List.cons_append] at hp
          obtain ⟨e4, hp⟩ := List.cons_prefix_cons.mp hp
          rcases T4 with _ | ⟨a5, T5⟩
          · obtain ⟨_, hp⟩ := List.cons_prefix_cons.mp hp
            exact absurd (List.cons_prefix_cons.mp hp).1 (by decide)
          · rw [List.cons_append] at hp
            obtain ⟨e5, hp⟩ := List.cons_prefix_cons.mp hp
            exact hT (e5 ▸ (by simp : a5 ∈ a1 :: a2 :: a3 :: a4 :: a5 :: T5))

theorem data_json_no_rbrace (ps : List (Str × Str)) (first : Bool)
    (h : ∀ p ∈ ps, (∀ c ∈ p.1, goodKVChar c) ∧ (∀ c ∈ p.2, goodKVChar c)) :
    '}' ∉ data_json ps first := by
  induction ps generalizing first with
  | nil => simp [data_json]
  | cons p rest ih =>
    obtain ⟨hk, hv⟩ := h p (List.mem_cons_self p rest)
    have hek : escape_json p.1 = p.1 := escape_json_id p.1 (fun c hc => (hk c hc).1)
    have hev : escape_json p.2 = p.2 := escape_json_id p.2 (fun c hc => (hv c hc).1)
    intro hm
    rw [show p = (p.1, p.2) from rfl, data_json, hek, hev] at hm
    rcases List.mem_append.mp hm with hm | hm
    · rcases List.mem_append.mp hm with hm | hm
      · cases first with
        | true => simp at hm
        | false =>
          rcases List.mem_cons.mp hm with hm | hm
          · exact absurd hm (by decide)
          · simp at hm
      · rcases List.mem_append.mp hm with hm | hm
        · rcases List.mem_append.mp hm with hm | hm
          · rcases List.mem_cons.mp hm with hm | hm
            · exact absurd hm (by decide)
            · exact (hk _ hm).2 rfl
          · rcases List.mem_cons.mp hm with hm | hm
            · exact absurd hm (by decide)
            · rcases List.mem_cons.mp hm with hm | hm
              · exact absurd hm (by decide)
              · rcases List.mem_cons.mp hm with hm | hm
                · exact absurd hm (by decide)
                · exact (hv _ hm).2 rfl
        · rcases List.mem_cons.mp hm with hm | hm
          · exact absurd hm (by decide)
          · simp at hm
    · exact ih false (fun q hq => h q (List.mem_cons_of_mem p hq)) hm

theorem data_json_length_ge (ps : List (Str × Str)) (first : Bool) :
    ps.length ≤ (data_json ps first).length := by
  induction ps generalizing first with
  | nil => simp [data_json]
  | cons p rest ih =>
    rw [show p = (p.1, p.2) from rfl, data_json]
    simp only [List.length_append, List.length_cons]
    have := ih false
    omega


theorem parse_pairs_loop (ps : List (Str × Str)) :
    ∀ (first : Bool) (pre : Str) (acc : List (Str × Str)) (fuel : Nat),
      (∀ p ∈ ps, (∀ c ∈ p.1, goodKVChar c) ∧ (∀ c ∈ p.2, goodKVChar c)) →
      (ps.map Prod.fst).Nodup →
      (∀ p ∈ ps, ∀ q ∈ acc, q.1 ≠ p.1) →
      ps.length + 1 ≤ fuel →
      parse_pairs fuel (pre ++ data_json ps first) pre.length acc = acc ++ ps := by
  induction ps with
  | nil =>
    intro first pre acc fuel _ _ _ hfuel
    obtain ⟨f, rfl⟩ : ∃ f, fuel = f + 1 := ⟨fuel - 1, by omega⟩
    rw [data_json, List.append_nil, parse_pairs, if_neg (by omega)]
    simp
  | cons p rest ih =>
    intro first pre acc fuel hgood hnodup hfresh hfuel
    obtain ⟨k, v⟩ := p
    obtain ⟨f, rfl⟩ : ∃ f, fuel = f + 1 := ⟨fuel - 1, by omega⟩
    have hk : ∀ c ∈ k, goodKVChar c := (hgood (k, v) (List.mem_cons_self _ _)).1
    have hv : ∀ c ∈ v, goodKVChar c := (hgood (k, v) (List.mem_cons_self _ _)).2
    have hkq : '"' ∉ k := fun hm => (hk _ hm).1.2.1 rfl
    have hvq : '"' ∉ v := fun hm => (hv _ hm).1.2.1 rfl
    have hkb : '\\' ∉ k := fun hm => (hk _ hm).1.2.2 rfl
    have hvb : '\\' ∉ v := fun hm => (hv _ hm).1.2.2 rfl
    rw [data_json, escape_json_id k (fun c hc => (hk c hc).1),
      escape_json_id v (fun c hc => (hv c hc).1)]
    set S : Str := if first then [] else [','] with hSdef
    have hSq : '"' ∉ S := by
      rw [hSdef]; cases first <;> decide
    set tail : Str := data_json rest false with htail
    have e1 : pre ++ (S ++ ('"' :: k ++ '"' :: ':' :: '"' :: v ++ ['"']) ++ tail)
        = pre ++ (S ++ ('"' :: (k ++ ('"' :: ':' :: '"' :: (v ++ ('"' :: tail)))))) := by
      simp [List.append_assoc]
    rw [e1]
    set C : Str := pre ++ (S ++ '"' :: (k ++ '"' :: ':' :: '"' :: (v ++ '"' :: tail)))
      with hCdef
    have hpos : pre.length < C.length := by
      rw [hCdef]
      simp only [List.length_append, List.length_cons]
      omega
    have h2 : findChar C '"' pre.length = some (pre.length + S.length) := by
      rw [hCdef, findChar_append_zero, findChar_split _ _ _ hSq]
      rfl
    have e2 : C = (pre ++ S ++ ['"']) ++ (k ++ ('"' :: ':' :: '"' :: (v ++ '"' :: tail))) := by
      rw [hCdef]; simp
    have hlen2 : (pre ++ S ++ ['"']).length = pre.length + S.length + 1 := by
      simp only [List.length_append, List.length_cons, List.length_nil]
    have h3 : findChar C '"' (pre.length + S.length + 1)
        = some (pre.length + S.length + 1 + k.length) := by
      rw [e2, ← hlen2, findChar_append_zero, findChar_split _ _ _ hkq]
      simp [hlen2]
    have harith1 : pre.length + S.length + 1 + k.length - (pre.length + S.length) - 1
        = k.length := by omega
    have hsub1 : substr C (pre.length + S.length + 1)
        (pre.length + S.length + 1 + k.length - (pre.length + S.length) - 1) = k := by
      rw [harith1, e2, ← hlen2, substr_append, List.take_left]
    have e3 : C = (pre ++ S ++ ['"'] ++ k ++ ['"', ':']) ++ ('"' :: (v ++ '"' :: tail)) := by
      rw [hCdef]; simp
    have hlen3 : (pre ++ S ++ ['"'] ++ k ++ ['"', ':']).length
        = pre.length + S.length + 1 + k.length + 2 := by
      simp only [List.length_append, List.length_cons, List.length_nil]
    have h4 : findChar C '"' (pre.length + S.length + 1 + k.length + 2)
        = some (pre.length + S.length + 1 + k.length + 2) := by
      rw [e3, ← hlen3, findChar_append_zero, findChar_cons_self]
      simp
    have e4 : C = (pre ++ S ++ ['"'] ++ k ++ ['"', ':', '"']) ++ (v ++ '"' :: tail) := by
      rw [hCdef]; simp
    have hlen4 : (pre ++ S ++ ['"'] ++ k ++ ['"', ':', '"']).length
        = pre.length + S.length + 1 + k.length + 2 + 1 := by
      simp only [List.length_append, List.length_cons, List.length_nil]
    have h5 : findChar C '"' (pre.length + S.length + 1 + k.length + 2 + 1)
        = some (pre.length + S.length + 1 + k.length + 2 + 1 + v.length) := by
      rw [e4, ← hlen4, findChar_append_zero, findChar_split _ _ _ hvq]
      simp [hlen4]
    have harith2 : pre.length + S.length + 1 + k.length + 2 + 1 + v.length
        - (pre.length + S.length + 1 + k.length + 2) - 1 = v.length := by omega
    have hsub2 : substr C (pre.length + S.length + 1 + k.length + 2 + 1)
        (pre.length + S.length + 1 + k.length + 2 + 1 + v.length
          - (pre.length + S.length + 1 + k.length + 2) - 1) = v := by
      rw [harith2, e4, ← hlen4, substr_append, List.take_left]
    have hfreshk : ∀ q ∈ acc, q.1 ≠ k :=
      fun q hq => hfresh (k, v) (List.mem_cons_self _ _) q hq
    have hnodup1 : (k :: rest.map Prod.fst).Nodup := by simpa using hnodup
    have e5 : C = (pre ++ S ++ ['"'] ++ k ++ ['"', ':', '"'] ++ v ++ ['"'])
        ++ data_json rest false := by
      rw [hCdef, htail]; simp
    have hlen5 : (pre ++ S ++ ['"'] ++ k ++ ['"', ':', '"'] ++ v ++ ['"']).length
        = pre.length + S.length + 1 + k.length + 2 + 1 + v.length + 1 := by
      simp only [List.length_append, List.length_cons, List.length_nil]
    rw [parse_pairs, if_pos hpos]
    simp only [h2, h3, h4, h5, hsub1, hsub2, unescape_json_id k hkb, unescape_json_id v hvb,
      mapAssign_fresh acc k v hfreshk]
    rw [e5, ← hlen5]
    rw [ih false (pre ++ S ++ ['"'] ++ k ++ ['"', ':', '"'] ++ v ++ ['"']) (acc ++ [(k, v)]) f
      (fun q hq => hgood q (List.mem_cons_of_mem _ hq)) (List.Nodup.of_cons hnodup)
      (fun p hp q hq => by
        rcases List.mem_append.mp hq with hql | hqr
        · exact hfresh p (List.mem_cons_of_mem _ hp) q hql
        · have hq2 : q = (k, v) := by simpa using hqr
          subst hq2
          intro e
          have ek : k = p.1 := e
          have hkmem : p.1 ∈ rest.map Prod.fst := List.mem_map_of_mem Prod.fst hp
          rw [← ek] at hkmem
          exact (List.nodup_cons.mp hnodup1).1 hkmem)
      (by simp at hfuel ⊢; omega)]
    simp


theorem isPrefixOf_eq_false_of_not_prefix {p q : Str} (h : ¬ p <+: q) :
    p.isPrefixOf q = false := by
  rw [← Bool.not_eq_true]
  exact fun hb => h (List.isPrefixOf_iff_prefix.mp hb)

/-! ## Claim theorems -/


/-- **C7** (counterexample).  The claim quantifies over all printable
ASCII contents, but a data value consisting of the printable character
`}` terminates the parser's data scan early: the round trip loses the
entire data map. -/
theorem ipc_roundtrip_counterexample :
    from_json (to_json cexIpcMsg) = some ⟨"t".toList, []⟩ ∧
    some (⟨"t".toList, []⟩ : IpcMessage) ≠ some cexIpcMsg := by
  refine ⟨by rfl, by decide⟩

/-- **C7** (amended).  The round trip `from_json (to_json m) = m` holds for
every message whose type consists of printable ASCII characters other than
`"` and `\\`, and whose data keys and values consist of printable ASCII
characters other than `"`, `\\` and `\x7d` (with the data map's keys
distinct, as in a `std::unordered_map`).  The excluded characters genuinely
break the scanner: `"`/`\\` because the quote-driven scan ignores escape
sequences (and the type is never unescaped), `\x7d` because the first
right brace after `"data":` ends the data scan. -/
theorem ipc_roundtrip_restricted (m : IpcMessage)
    (ht : ∀ c ∈ m.type, goodTypeChar c)
    (hd : ∀ p ∈ m.data, (∀ c ∈ p.1, goodKVChar c) ∧ (∀ c ∈ p.2, goodKVChar c))
    (hnd : (m.data.map Prod.fst).Nodup) :
    from_json (to_json m) = some m := by
  rcases m with ⟨T, ps⟩
  simp only at ht hd hnd
  set J : Str := to_json ⟨T, ps⟩ with hJdef
  set D : Str := data_json ps true with hDdef
  have hTq : '"' ∉ T := fun hm => (ht _ hm).2.1 rfl
  have hlit1 : ("\x7b\"type\":\"".toList : Str) = ['{', '"', 't', 'y', 'p', 'e', '"', ':', '"'] := rfl
  have hlit2 : ("\",\"data\":\x7b".toList : Str) = ['"', ',', '"', 'd', 'a', 't', 'a', '"', ':', '{'] := rfl
  have hlit3 : ("\x7d\x7d".toList : Str) = ['}', '}'] := rfl
  have hJ : J = '{' :: '"' :: 't' :: 'y' :: 'p' :: 'e' :: '"' :: ':' :: '"' ::
      (T ++ ('"' :: ',' :: '"' :: 'd' :: 'a' :: 't' :: 'a' :: '"' :: ':' :: '{' ::
        (D ++ ['}', '}']))) := by
    rw [hJdef, to_json]
    dsimp only
    rw [escape_json_id T ht, hlit1, hlit2, hlit3, ← hDdef]
    simp
  have eJ8 : J = (['{', '"', 't', 'y', 'p', 'e', '"', ':'] : Str) ++
      ('"' :: (T ++ ('"' :: ',' :: '"' :: 'd' :: 'a' :: 't' :: 'a' :: '"' :: ':' :: '{' ::
        (D ++ ['}', '}'])))) := by rw [hJ]; rfl
  have eJ9 : J = (['{', '"', 't', 'y', 'p', 'e', '"', ':', '"'] : Str) ++
      (T ++ ('"' :: ',' :: '"' :: 'd' :: 'a' :: 't' :: 'a' :: '"' :: ':' :: '{' ::
        (D ++ ['}', '}']))) := by rw [hJ]; rfl
  -- f1: "type": is found at index 1
  have hpat1 : ("\"type\":".toList : Str) = ['"', 't', 'y', 'p', 'e', '"', ':'] := rfl
  have hocc1 : (("\"type\":".toList : Str)).isPrefixOf (J.drop 1) = true := by
    have hdrop : J.drop 1 = (['"', 't', 'y', 'p', 'e', '"', ':'] : Str) ++
        ('"' :: (T ++ ('"' :: ',' :: '"' :: 'd' :: 'a' :: 't' :: 'a' :: '"' :: ':' :: '{' ::
          (D ++ ['}', '}'])))) := by rw [hJ]; rfl
    rw [hdrop, hpat1]
    exact List.isPrefixOf_iff_prefix.mpr (List.prefix_append _ _)
  have f1 : findSub J ("\"type\":".toList) 0 = some 1 := by
    apply findSub_eq _ _ _ (by rw [hpat1]; decide) hocc1
    intro q hq
    have hq0 : q = 0 := by omega
    subst hq0
    rw [List.drop_zero, hJ, hpat1]
    exact isPrefixOf_eq_false_of_not_prefix (not_prefix_head_ne _ _ (by decide))
  -- f2: the quote opening the type value is at index 8
  have f2 : findChar J '"' (1 + 7) = some 8 := by
    rw [eJ8, show (1 : Nat) + 7 = (['{', '"', 't', 'y', 'p', 'e', '"', ':'] : Str).length from rfl,
      findChar_append_zero, findChar_cons_self]
    rfl
  -- f3: the quote closing the type value is at index 9 + |T|
  have f3 : findChar J '"' (8 + 1) = some (8 + 1 + T.length) := by
    rw [eJ9, show (8 : Nat) + 1 = (['{', '"', 't', 'y', 'p', 'e', '"', ':', '"'] : Str).length from rfl,
      findChar_append_zero, findChar_split _ _ _ hTq]
    rfl
  have fsubT : substr J (8 + 1) (8 + 1 + T.length - 8 - 1) = T := by
    rw [show 8 + 1 + T.length - 8 - 1 = T.length from by omega, eJ9,
      show (8 : Nat) + 1 = (['{', '"', 't', 'y', 'p', 'e', '"', ':', '"'] : Str).length from rfl,
      substr_append, List.take_left]
  -- the tail after the type value's closing quote
  have hpat2 : ("\"data\":\x7b".toList : Str) = ['"', 'd', 'a', 't', 'a', '"', ':', '{'] := rfl
  have eJ11 : J = ((['{', '"', 't', 'y', 'p', 'e', '"', ':', '"'] : Str) ++ T ++ ['"', ',']) ++
      ('"' :: 'd' :: 'a' :: 't' :: 'a' :: '"' :: ':' :: '{' :: (D ++ ['}', '}'])) := by
    rw [hJ]; simp
  have hlen11 : (((['{', '"', 't', 'y', 'p', 'e', '"', ':', '"'] : Str) ++ T ++ ['"', ','])).length
      = 11 + T.length := by
    simp only [List.length_append, List.length_cons, List.length_nil]
    omega
  have hocc2 : (("\"data\":\x7b".toList : Str)).isPrefixOf (J.drop (11 + T.length)) = true := by
    have hdrop : J.drop (11 + T.length)
        = '"' :: 'd' :: 'a' :: 't' :: 'a' :: '"' :: ':' :: '{' :: (D ++ ['}', '}']) := by
      rw [eJ11, ← hlen11, List.drop_left]
    rw [hdrop, hpat2]
    exact List.isPrefixOf_iff_prefix.mpr ⟨D ++ ['}', '}'], rfl⟩
  have hmin2 : ∀ q, q < 11 + T.length →
      (("\"data\":\x7b".toList : Str)).isPrefixOf (J.drop q) = false := by
    intro q hq
    rw [hpat2]
    apply isPrefixOf_eq_false_of_not_prefix
    by_cases h8 : q < 8
    · interval_cases q
      · rw [List.drop_zero, hJ]
        exact not_prefix_head_ne _ _ (by decide)
      · rw [show J.drop 1 = '"' :: 't' :: 'y' :: 'p' :: 'e' :: '"' :: ':' :: '"' ::
            (T ++ ('"' :: ',' :: '"' :: 'd' :: 'a' :: 't' :: 'a' :: '"' :: ':' :: '{' ::
              (D ++ ['}', '}']))) from by rw [hJ]; rfl]
        intro hp
        exact absurd (List.cons_prefix_cons.mp (List.cons_prefix_cons.mp hp).2).1 (by decide)
      · rw [show J.drop 2 = 't' :: 'y' :: 'p' :: 'e' :: '"' :: ':' :: '"' ::
            (T ++ ('"' :: ',' :: '"' :: 'd' :: 'a' :: 't' :: 'a' :: '"' :: ':' :: '{' ::
              (D ++ ['}', '}']))) from by rw [hJ]; rfl]
        exact not_prefix_head_ne _ _ (by decide)
      · rw [show J.drop 3 = 'y' :: 'p' :: 'e' :: '"' :: ':' :: '"' ::
            (T ++ ('"' :: ',' :: '"' :: 'd' :: 'a' :: 't' :: 'a' :: '"' :: ':' :: '{' ::
              (D ++ ['}', '}']))) from by rw [hJ]; rfl]
        exact not_prefix_head_ne _ _ (by decide)
      · rw [show J.drop 4 = 'p' :: 'e' :: '"' :: ':' :: '"' ::
            (T ++ ('"' :: ',' :: '"' :: 'd' :: 'a' :: 't' :: 'a' :: '"' :: ':' :: '{' ::
              (D ++ ['}', '}']))) from by rw [hJ]; rfl]
        exact not_prefix_head_ne _ _ (by decide)
      · rw [show J.drop 5 = 'e' :: '"' :: ':' :: '"' ::
            (T ++ ('"' :: ',' :: '"' :: 'd' :: 'a' :: 't' :: 'a' :: '"' :: ':' :: '{' ::
              (D ++ ['}', '}']))) from by rw [hJ]; rfl]
        exact not_prefix_head_ne _ _ (by decide)
      · rw [show J.drop 6 = '"' :: ':' :: '"' ::
            (T ++ ('"' :: ',' :: '"' :: 'd' :: 'a' :: 't' :: 'a' :: '"' :: ':' :: '{' ::
              (D ++ ['}', '}']))) from by rw [hJ]; rfl]
        intro hp
        exact absurd (List.cons_prefix_cons.mp (List.cons_prefix_cons.mp hp).2).1 (by decide)
      · rw [show J.drop 7 = ':' :: '"' ::
            (T ++ ('"' :: ',' :: '"' :: 'd' :: 'a' :: 't' :: 'a' :: '"' :: ':' :: '{' ::
              (D ++ ['}', '}']))) from by rw [hJ]; rfl]
        exact not_prefix_head_ne _ _ (by decide)
    · by_cases h8e : q = 8
      · subst h8e
        rw [show J.drop 8 = '"' ::
            (T ++ ('"' :: ',' :: ('"' :: 'd' :: 'a' :: 't' :: 'a' :: '"' :: ':' :: '{' ::
              (D ++ ['}', '}'])))) from by rw [hJ]; rfl]
        intro hp
        exact data_pat_not_prefix T _ hTq (List.cons_prefix_cons.mp hp).2
      · by_cases hqT : q < 9 + T.length
        · obtain ⟨j, rfl⟩ : ∃ j, q = 9 + j := ⟨q - 9, by omega⟩
          have hjT : j < T.length := by omega
          have hdropq : J.drop (9 + j)
              = T.drop j ++ ('"' :: ',' :: '"' :: 'd' :: 'a' :: 't' :: 'a' :: '"' :: ':' :: '{' ::
                (D ++ ['}', '}'])) := by
            rw [eJ9, show (9 : Nat) + j
                = (['{', '"', 't', 'y', 'p', 'e', '"', ':', '"'] : Str).length + j from rfl,
              drop_append_add, List.drop_append_of_le_length (Nat.le_of_lt hjT)]
          obtain ⟨x, xs, hxd, hxm⟩ := drop_lt_exists_cons T j hjT
          rw [hdropq, hxd, List.cons_append]
          intro hp
          have hx := (List.cons_prefix_cons.mp hp).1
          rw [← hx] at hxm
          exact hTq hxm
        · have : q = 9 + T.length ∨ q = 10 + T.length := by omega
          have hdrop9L : J.drop (9 + T.length)
              = '"' :: ',' :: '"' :: 'd' :: 'a' :: 't' :: 'a' :: '"' :: ':' :: '{' ::
                (D ++ ['}', '}']) := by
            rw [eJ9, show (9 : Nat) + T.length
                = (['{', '"', 't', 'y', 'p', 'e', '"', ':', '"'] : Str).length + T.length from rfl,
              drop_append_add, show T.length = T.length + 0 from rfl, drop_append_add,
              List.drop_zero]
          rcases this with rfl | rfl
          · rw [hdrop9L]
            intro hp
            exact absurd (List.cons_prefix_cons.mp (List.cons_prefix_cons.mp hp).2).1 (by decide)
          · rw [show (10 : Nat) + T.length = (9 + T.length) + 1 from by omega,
              ← List.drop_drop, hdrop9L]
            exact not_prefix_head_ne _ _ (by decide)
  have f4 : findSub J ("\"data\":\x7b".toList) 0 = some (11 + T.length) :=
    findSub_eq _ _ _ (by rw [hpat2]; decide) hocc2 hmin2
  -- f5: the data object's opening brace
  have eJ18 : J = (((['{', '"', 't', 'y', 'p', 'e', '"', ':', '"'] : Str) ++ T ++ ['"', ','])
      ++ ['"', 'd', 'a', 't', 'a', '"', ':']) ++ ('{' :: (D ++ ['}', '}'])) := by
    rw [hJ]; simp
  have f5 : findChar J '{' (11 + T.length) = some (11 + T.length + 7) := by
    have e : J = ((['{', '"', 't', 'y', 'p', 'e', '"', ':', '"'] : Str) ++ T ++ ['"', ',']) ++
        (['"', 'd', 'a', 't', 'a', '"', ':'] ++ ('{' :: (D ++ ['}', '}']))) := by
      rw [hJ]; simp
    rw [e, ← hlen11, findChar_append_zero, findChar_split _ _ _ (by decide)]
    rw [hlen11]
    rfl
  -- f6: the first closing brace after the data object's opening brace
  have hDq : '}' ∉ D := by
    rw [hDdef]
    exact data_json_no_rbrace ps true hd
  have hDq2 : '}' ∉ ('{' :: D) := by
    intro hm
    rcases List.mem_cons.mp hm with hm | hm
    · exact absurd hm (by decide)
    · exact hDq hm
  have eJ18b : J = (((['{', '"', 't', 'y', 'p', 'e', '"', ':', '"'] : Str) ++ T ++ ['"', ','])
      ++ ['"', 'd', 'a', 't', 'a', '"', ':']) ++ (('{' :: D) ++ ('}' :: ['}'])) := by
    rw [hJ]; simp
  have hlen18 : ((((['{', '"', 't', 'y', 'p', 'e', '"', ':', '"'] : Str) ++ T ++ ['"', ','])
      ++ ['"', 'd', 'a', 't', 'a', '"', ':'])).length = 11 + T.length + 7 := by
    simp only [List.length_append, List.length_cons, List.length_nil]
    omega
  have f6 : findChar J '}' (11 + T.length + 7)
      = some (11 + T.length + 7 + (D.length + 1)) := by
    rw [eJ18b, ← hlen18, findChar_append_zero, findChar_split _ _ _ hDq2]
    rw [hlen18]
    simp
  have fsubD : substr J (11 + T.length + 7 + 1)
      (11 + T.length + 7 + (D.length + 1) - (11 + T.length + 7) - 1) = D := by
    have e : J = ((((['{', '"', 't', 'y', 'p', 'e', '"', ':', '"'] : Str) ++ T ++ ['"', ','])
        ++ ['"', 'd', 'a', 't', 'a', '"', ':']) ++ ['{']) ++ (D ++ ['}', '}']) := by
      rw [hJ]; simp
    have hlen19 : (((((['{', '"', 't', 'y', 'p', 'e', '"', ':', '"'] : Str) ++ T ++ ['"', ','])
        ++ ['"', 'd', 'a', 't', 'a', '"', ':']) ++ ['{'])).length = 11 + T.length + 7 + 1 := by
      simp only [List.length_append, List.length_cons, List.length_nil]
      omega
    rw [show 11 + T.length + 7 + (D.length + 1) - (11 + T.length + 7) - 1 = D.length from
      by omega, e, ← hlen19, substr_append, List.take_left]
  have hparse : parse_pairs (D.length + 1) D 0 [] = ps := by
    have h := parse_pairs_loop ps true [] [] (D.length + 1) hd hnd
      (fun p _ q hq => absurd hq (List.not_mem_nil q))
      (by
        have := data_json_length_ge ps true
        rw [hDdef]
        omega)
    simpa [hDdef] using h
  rw [from_json]
  simp only [f1, f2, f3, fsubT, f4, f5, f6, fsubD, hparse]

/-- **C7** witness for the amended claim: a realistic two-entry message. -/
theorem ipc_roundtrip_restricted_witness :
    from_json (to_json ⟨"user_message".toList,
      [("message".toList, "Hi there".toList), ("id".toList, "42".toList)]⟩)
      = some ⟨"user_message".toList,
        [("message".toList, "Hi there".toList), ("id".toList, "42".toList)]⟩ :=
  ipc_roundtrip_restricted
    ⟨"user_message".toList, [("message".toList, "Hi there".toList), ("id".toList, "42".toList)]⟩
    (by decide) (by decide) (by decide)


/-- **C1** (code_bug evaluation).  The spec claims FIFO dequeue order among
equal-priority tasks.  Evaluating the modelled `std::priority_queue` on
four tasks of equal priority (Normal) submitted as ids 1,2,3,4 shows the
dequeue order is 1,3,2,4 — not FIFO. -/
theorem taskQueue_equal_priority_pop_order :
    popAllIds 4 (pqPush (pqPush (pqPush (pqPush [] ⟨1, 1⟩) ⟨2, 1⟩) ⟨3, 1⟩) ⟨4, 1⟩)
      = [1, 3, 2, 4] ∧ ([1, 3, 2, 4] : List Nat) ≠ [1, 2, 3, 4] := by decide

/-- **C2** (counterexample).  The claim says a task submitted after `stop`
observes status `Failed`.  Submitting to a stopped queue yields a handle
whose status is `Pending`, not `Failed`. -/
theorem submit_after_stop_not_failed :
    handleStatus (submit (stop ⟨true, 1, [], []⟩) 1).1 (submit (stop ⟨true, 1, [], []⟩) 1).2
      = TaskStatus.Pending ∧ TaskStatus.Pending ≠ TaskStatus.Failed := by decide

/-- **C2** (amended).  A task submitted after `stop` is enqueued exactly as
before `stop`: its handle observes status `Pending` (never a terminal
status — no worker remains to run it and a further `stop` drops it without
a status store), the queue stays stopped, and `submit` returns normally
(it is a total function of the state — no exception reaches the
submitter). -/
theorem submit_after_stop_stays_pending (s : QueueState) (priority : Nat)
    (hrun : s.running = false)
    (hfresh : ∀ p ∈ s.cells, p.1 ≠ s.next_id) :
    handleStatus (submit s priority).1 (submit s priority).2 = TaskStatus.Pending ∧
    (submit s priority).1.running = false ∧
    handleStatus (stop (submit s priority).1) (submit s priority).2 = TaskStatus.Pending := by
  have hcell : ((submit s priority).1).cells.lookup (submit s priority).2
      = some ⟨TaskStatus.Pending, false⟩ := by
    simp only [submit]
    exact lookup_append_fresh s.cells s.next_id _ hfresh
  refine ⟨?_, hrun, ?_⟩
  · simp only [handleStatus, hcell]
  · have hs : stop (submit s priority).1 = (submit s priority).1 := by
      unfold stop
      rw [if_pos (show (submit s priority).1.running = false from hrun)]
    rw [hs]
    simp only [handleStatus, hcell]

/-- **C2** witness for the amended claim. -/
theorem submit_after_stop_stays_pending_witness :
    handleStatus (submit ⟨false, 1, [], []⟩ 1).1 (submit ⟨false, 1, [], []⟩ 1).2
      = TaskStatus.Pending ∧
    (submit ⟨false, 1, [], []⟩ 1).1.running = false ∧
    handleStatus (stop (submit ⟨false, 1, [], []⟩ 1).1) (submit ⟨false, 1, [], []⟩ 1).2
      = TaskStatus.Pending :=
  submit_after_stop_stays_pending ⟨false, 1, [], []⟩ 1 rfl (by simp)

/-- **C5** (confirmed).  If the shared cancel flag is set when a worker
picks the task up, the wrapper built by `submit` skips the user work
entirely, stores only `Cancelled`, and never stores `Running`. -/
theorem cancelled_before_run_skips_work (cancelled workThrows : Bool)
    (h : cancelled = true) :
    (taskWorkWrapper cancelled workThrows).1 = false ∧
    (taskWorkWrapper cancelled workThrows).2 = [TaskStatus.Cancelled] ∧
    TaskStatus.Running ∉ (taskWorkWrapper cancelled workThrows).2 := by
  subst h
  simp [taskWorkWrapper]

/-- **C5** witness. -/
theorem cancelled_before_run_skips_work_witness :
    (taskWorkWrapper true false).1 = false ∧
    (taskWorkWrapper true false).2 = [TaskStatus.Cancelled] ∧
    TaskStatus.Running ∉ (taskWorkWrapper true false).2 :=
  cancelled_before_run_skips_work true false rfl

/-- **C6** (counterexample).  The claim says only `unregister` leaves the
`Error` state and `shutdown` applies only from Loaded/Enabled/Disabled.
Running `shutdown_module` on a registered module in `Error` whose
`shutdown()` succeeds sets its state to `Unloaded`. -/
theorem shutdown_module_error_counterexample :
    ((shutdown_module [("m", ⟨ModuleState.Error, true, true⟩)] "m").1.lookup "m")
      = some ⟨ModuleState.Unloaded, true, true⟩ ∧
    ModuleState.Unloaded ≠ ModuleState.Error := by decide

/-- **C6** (amended).  `shutdown_module` performs the disable-then-shutdown
sequence with no guard on the prior state: for any registered module whose
`shutdown()` hook succeeds, the call succeeds and leaves the module in
`Unloaded` — from any prior state, including `Error`.  (`Error` is
therefore also left by a successful `shutdown`, not only by
`unregister`.) -/
theorem shutdown_module_unloads_any_state (r : Registry) (name : String) (m : MockModule)
    (hm : r.lookup name = some m) (hok : m.shutdownOk = true) :
    (shutdown_module r name).1.lookup name
      = some ⟨ModuleState.Unloaded, m.disableOk, m.shutdownOk⟩ ∧
    (shutdown_module r name).2 = true := by
  unfold shutdown_module
  simp only [hm]
  by_cases hen : m.state = ModuleState.Enabled
  · rw [if_pos hen]
    unfold disable_module
    simp only [hm]
    rw [if_neg (not_not_intro hen)]
    by_cases hd : m.disableOk = true
    · rw [if_pos hd]
      have h1 : (regUpdate r name (fun m0 => { m0 with state := ModuleState.Disabled })).lookup name
          = some { m with state := ModuleState.Disabled } := lookup_regUpdate r name m _ hm
      simp only [h1]
      rw [if_pos hok]
      exact ⟨lookup_regUpdate _ name ⟨ModuleState.Disabled, m.disableOk, m.shutdownOk⟩
        (fun m0 => { m0 with state := ModuleState.Unloaded }) h1, rfl⟩
    · rw [if_neg hd]
      simp only [hm]
      rw [if_pos hok]
      exact ⟨lookup_regUpdate _ name _
        (fun m0 => { m0 with state := ModuleState.Unloaded }) hm, rfl⟩
  · rw [if_neg hen]
    simp only [hm]
    rw [if_pos hok]
    exact ⟨lookup_regUpdate _ name _
      (fun m0 => { m0 with state := ModuleState.Unloaded }) hm, rfl⟩

/-- **C6** witness for the amended claim (a module in `Error`). -/
theorem shutdown_module_unloads_any_state_witness :
    (shutdown_module [("m", ⟨ModuleState.Error, true, true⟩)] "m").1.lookup "m"
      = some ⟨ModuleState.Unloaded, true, true⟩ ∧
    (shutdown_module [("m", ⟨ModuleState.Error, true, true⟩)] "m").2 = true :=
  shutdown_module_unloads_any_state [("m", ⟨ModuleState.Error, true, true⟩)] "m"
    ⟨ModuleState.Error, true, true⟩ (by decide) rfl

/-- **C9** (confirmed).  `EventBus::emit` returns `true` and appends the
event to the delivery queue for every bus state — in particular also on a
stopped bus (`emit` never consults `running_` and has no failure path). -/
theorem emit_always_enqueues (s : BusState) (etype : String) (data : EventData)
    (source : String) (tick : Nat) :
    (emit s etype data source tick).1 = true ∧
    (emit s etype data source tick).2.event_queue
      = s.event_queue ++ [⟨etype, data, source, tick⟩] ∧
    emit (busStop s) etype data source tick
      = (true, { busStop s with event_queue := s.event_queue ++ [⟨etype, data, source, tick⟩] }) :=
  ⟨rfl, rfl, rfl⟩

/-- **C10** (confirmed).  `emit_sync` delivers through the same
`deliver_event` path as asynchronous delivery, and `deliver_event` filters
out the source name: a handler registered under the event's source is
never invoked, also on the synchronous path. -/
theorem emit_sync_excludes_source (s : BusState) (etype : String) (data : EventData)
    (source : String) (tick : Nat) :
    emit_sync s etype data source tick = deliver_event s ⟨etype, data, source, tick⟩ ∧
    source ∉ deliver_event s ⟨etype, data, source, tick⟩ ∧
    source ∉ emit_sync s etype data source tick := by
  have hnot : source ∉ deliver_event s ⟨etype, data, source, tick⟩ := by
    unfold deliver_event
    cases s.subscriptions.lookup etype with
    | none => simp
    | some subs =>
      intro hmem
      have := (List.mem_filter.mp hmem).2
      simp at this
  exact ⟨rfl, hnot, hnot⟩

/-- **C4** (confirmed).  A kernel-API call by module `m` that requires a
permission bit absent from `m`'s granted set returns `false` and leaves
the event bus completely unchanged: `emit_event` without `EventEmit`
enqueues nothing, `subscribe_event` without `EventSubscribe` adds no
subscription entry. -/
theorem permission_denied_no_side_effect (api : ApiState) (bus : BusState)
    (m etype : String) (data : EventData) (tick : Nat) :
    (has_permission (grantedPerms api m) Permission.EventEmit = false →
      emit_event api bus m etype data tick = (false, bus)) ∧
    (has_permission (grantedPerms api m) Permission.EventSubscribe = false →
      subscribe_event api bus m etype = (false, bus)) := by
  constructor
  · intro h
    have hc : check_permission api m Permission.EventEmit = false :=
      (check_permission_eq_granted api m Permission.EventEmit (by decide)).trans h
    simp [emit_event, hc]
  · intro h
    have hc : check_permission api m Permission.EventSubscribe = false :=
      (check_permission_eq_granted api m Permission.EventSubscribe (by decide)).trans h
    simp [subscribe_event, hc]

/-- **C8** (counterexample).  The claim quantifies over every inbound
greeting user_message, but when the inference engine is not ready the
kernel replies "LLM not available.", not "Hello!". -/
theorem greeting_not_ready_counterexample :
    process_user_message false "hi".toList = KernelAction.reply "LLM not available.".toList ∧
    KernelAction.reply "LLM not available.".toList ≠ KernelAction.reply "Hello!".toList := by
  decide

/-- **C8** (amended).  Provided the inference engine is ready, every
user_message whose payload trims and lowercases to one of the ten canned
greetings is answered immediately with reply "Hello!" and no inference job
is submitted.  (When the engine is not ready the reply is
"LLM not available." and still no job is submitted.) -/
theorem greeting_shortcut (message : Str)
    (h : trim (to_lower message) ∈ greetings.map Prod.fst) :
    process_user_message true message = KernelAction.reply "Hello!".toList ∧
    ∀ req, process_user_message true message ≠ KernelAction.submitJob req := by
  have hmain : process_user_message true message = KernelAction.reply "Hello!".toList := by
    simp only [greetings, List.map_cons, List.map_nil, List.mem_cons,
      List.not_mem_nil, or_false] at h
    rcases h with h | h | h | h | h | h | h | h | h | h <;>
      (unfold process_user_message; rw [h]; rfl)
  refine ⟨hmain, fun req hc => ?_⟩
  rw [hmain] at hc
  exact KernelAction.noConfusion hc

/-- **C8** witness for the amended claim: the greeting "  Good Morning "
(with surrounding whitespace and mixed case) on a ready engine. -/
theorem greeting_shortcut_witness :
    process_user_message true "  Good Morning ".toList
      = KernelAction.reply "Hello!".toList ∧
    ∀ req, process_user_message true "  Good Morning ".toList
      ≠ KernelAction.submitJob req :=
  greeting_shortcut "  Good Morning ".toList (by decide)

/-- **C3** (counterexample).  With context length 8, a 4-token prompt and
max_tokens 5, a context-faithful runtime trace lets `generate` produce 5
tokens — more than the claimed bound min(max_tokens, context_length −
prompt_tokens) = 4 — and even return them successfully (the fifth token's
callback stops the loop before its decode). -/
theorem generate_exceeds_context_budget :
    (generate 8 4 5 [] true (fun _ => false) cexSteps).1 = Except.ok "abcde".toList ∧
    (generate 8 4 5 [] true (fun _ => false) cexSteps).2
      = some ⟨"abcde".toList, 5, GenExit.callbackStop⟩ ∧
    ctxFaithful 8 4 cexSteps = true ∧
    min 5 (8 - 4) < 5 :=
  ⟨rfl, rfl, rfl, by decide⟩

/-- **C3** (amended).  The generation loop enforces only the `max_tokens`
bound: it produces at most `max_tokens` tokens.  Under a context-faithful
runtime (a decode at a position `≥ context_length` never succeeds) it
produces at most `context_length − prompt_tokens + 1` tokens — one more
than the claimed bound, because the token whose decode would overflow is
produced before the decode (and the failed decode then makes `generate`
return an error).  If the cancel flag reads true from loop iteration `j`
on, no token is produced at or after iteration `j`: the total is at most
`min max_tokens j` (so a flag set between tokens stops the loop with zero
further tokens, within the claimed one). -/
theorem generate_token_bounds (C P maxT : Nat) (stops : List Str) (hasCb : Bool)
    (cancel : Nat → Bool) (steps : List GenStep) :
    (genLoop cancel stops hasCb maxT steps 0 [] 0 P).n_generated ≤ maxT ∧
    (ctxFaithful C P steps = true →
      (genLoop cancel stops hasCb maxT steps 0 [] 0 P).n_generated ≤ (C - P) + 1) ∧
    (∀ j, (∀ i, j ≤ i → cancel i = true) →
      (genLoop cancel stops hasCb maxT steps 0 [] 0 P).n_generated ≤ min maxT j) := by
  refine ⟨genLoop_le_max cancel stops hasCb maxT steps 0 [] 0 P (Nat.zero_le _), ?_, ?_⟩
  · intro hf
    have h := genLoop_ctx_bound cancel stops hasCb maxT C steps 0 [] 0 P hf
    omega
  · intro j hj
    have h1 := genLoop_le_max cancel stops hasCb maxT steps 0 [] 0 P (Nat.zero_le _)
    have h2 := genLoop_cancel_bound cancel stops hasCb maxT j hj steps 0 [] 0 P
    have h3 : (genLoop cancel stops hasCb maxT steps 0 [] 0 P).n_generated ≤ j := by omega
    exact le_min h1 h3

/-- **C3** witness for the amended claim: the five-token trace with the
cancel flag set from iteration 2 on. -/
theorem generate_token_bounds_witness :
    (genLoop (fun i => decide (2 ≤ i)) default_stops true 5 cexSteps 0 [] 0 4).n_generated
      ≤ 5 ∧
    (genLoop (fun i => decide (2 ≤ i)) default_stops true 5 cexSteps 0 [] 0 4).n_generated
      ≤ (8 - 4) + 1 ∧
    (genLoop (fun i => decide (2 ≤ i)) default_stops true 5 cexSteps 0 [] 0 4).n_generated
      ≤ min 5 2 :=
  ⟨(generate_token_bounds 8 4 5 default_stops true (fun i => decide (2 ≤ i)) cexSteps).1,
   (generate_token_bounds 8 4 5 default_stops true (fun i => decide (2 ≤ i)) cexSteps).2.1
     (by decide),
   (generate_token_bounds 8 4 5 default_stops true (fun i => decide (2 ≤ i)) cexSteps).2.2 2
     (fun i hi => decide_eq_true hi)⟩

/-- **C4** witness: a module granted only `IpcSend` (bit 1) is denied both
event calls, with the bus state unchanged. -/
theorem permission_denied_no_side_effect_witness :
    emit_event ⟨[("m", 1)]⟩ ⟨true, [], [], []⟩ "m" "e" [] 0 = (false, ⟨true, [], [], []⟩) ∧
    subscribe_event ⟨[("m", 1)]⟩ ⟨true, [], [], []⟩ "m" "e" = (false, ⟨true, [], [], []⟩) :=
  ⟨(permission_denied_no_side_effect ⟨[("m", 1)]⟩ ⟨true, [], [], []⟩ "m" "e" [] 0).1 (by decide),
   (permission_denied_no_side_effect ⟨[("m", 1)]⟩ ⟨true, [], [], []⟩ "m" "e" [] 0).2 (by decide)⟩

end EV3
